import Mathlib

/-!
Verification of the HybridCloudSim repository (HybridCloud package).

Shallow embedding of:
  * `JobRecordsManager.log_job_event` and
    `JobRecordsManager.finalize_job_energy_cost`
    (src/HybridCloud/job_records_manager.py),
  * the resource-acquisition / release protocol of `CPU.process_job` and
    `AMDRyzen.process_job` (src/HybridCloud/devices.py),
  * the simpy `Container` capacity pools the devices allocate in
    `CPU.assign_env` (devices.py, lines 26-27),
  * `AMDRyzen.effective_perf` and the performance-model branch of
    `AMDRyzen.process_job` (devices.py, lines 127-154),
  * the default cost configuration of `HybridCloudSimEnv.__init__`
    (src/HybridCloud/hybridcloudsimenv.py, lines 32-65).

Python dicts are modelled as association lists (insertion order preserved,
one binding per key); Python floats as rationals (and, for the one real
exponentiation `cpu_units ** 0.85`, as reals); a Python function that can
raise returns `Except`.
-/

namespace HybridCloudSim

/-! ### Association-list model of Python dicts -/

/-- `m.get(k)` on a Python dict: the value bound to the first (unique)
occurrence of `k`, if any. -/
def alistGet {κ β : Type} [DecidableEq κ] (m : List (κ × β)) (k : κ) : Option β :=
  match m with
  | [] => none
  | (k', v) :: rest => if k' = k then some v else alistGet rest k

/-- `m[k] = v` on a Python dict: replace the binding in place if `k` is
present, otherwise append the new binding (insertion order). -/
def alistSet {κ β : Type} [DecidableEq κ] (m : List (κ × β)) (k : κ) (v : β) :
    List (κ × β) :=
  match m with
  | [] => [(k, v)]
  | (k', v') :: rest =>
      if k' = k then (k', v) :: rest else (k', v') :: alistSet rest k v

/-- `m.get(k, d)` on a Python dict. -/
def alistGetD {κ β : Type} [DecidableEq κ] (m : List (κ × β)) (k : κ) (d : β) : β :=
  (alistGet m k).getD d

theorem alistGet_set_self {κ β : Type} [DecidableEq κ]
    (m : List (κ × β)) (k : κ) (v : β) :
    alistGet (alistSet m k v) k = some v := by
  induction m with
  | nil => simp [alistGet, alistSet]
  | cons hd tl ih =>
      obtain ⟨k', v'⟩ := hd
      by_cases h : k' = k <;> simp [alistGet, alistSet, h, ih]

theorem alistGet_set_ne {κ β : Type} [DecidableEq κ]
    (m : List (κ × β)) (k k' : κ) (v : β) (hne : k ≠ k') :
    alistGet (alistSet m k v) k' = alistGet m k' := by
  induction m with
  | nil => simp [alistGet, alistSet, hne]
  | cons hd tl ih =>
      obtain ⟨k₀, v₀⟩ := hd
      by_cases h : k₀ = k
      · subst h
        simp [alistGet, alistSet, hne]
      · simp [alistGet, alistSet, h, ih]

theorem alistSet_set_self {κ β : Type} [DecidableEq κ]
    (m : List (κ × β)) (k : κ) (v v' : β) :
    alistSet (alistSet m k v) k v' = alistSet m k v' := by
  induction m with
  | nil => simp [alistSet]
  | cons hd tl ih =>
      obtain ⟨k₀, v₀⟩ := hd
      by_cases h : k₀ = k <;> simp [alistSet, h, ih]

/-! ### `JobRecordsManager.log_job_event` (job_records_manager.py, lines 12-33)

`job_records` is a dict from job id to a dict from event type to a list of
logged values.  Event values are heterogeneous in Python (strings, ints,
floats), so the value type is a parameter `α` here. -/

/-- The two-level records store: job id → (event type → ordered value list). -/
abbrev Records (α : Type) := List (ℕ × List (String × List α))

/-- `log_job_event(self, job_id, event_type, timestamp)`:
creates the per-job dict on first use (the source checks `job_id not in
self.job_records` twice, lines 21-22 and 25-26; the second check is dead),
then appends `timestamp` to the list at `event_type`, creating a fresh
one-element list on the first occurrence of that event type. -/
def log_job_event {α : Type} (records : Records α) (job_id : ℕ)
    (event_type : String) (timestamp : α) : Records α :=
  let records₁ :=
    if (alistGet records job_id).isNone then alistSet records job_id [] else records
  let records₂ :=
    if (alistGet records₁ job_id).isNone then alistSet records₁ job_id [] else records₁
  let jobRec := (alistGet records₂ job_id).getD []
  match alistGet jobRec event_type with
  | none => alistSet records₂ job_id (alistSet jobRec event_type [timestamp])
  | some l => alistSet records₂ job_id (alistSet jobRec event_type (l ++ [timestamp]))

/-- The ordered list of values logged for `(job_id, event_type)`; `[]` when
either level of the dict is missing. -/
def loggedEvents {α : Type} (records : Records α) (job_id : ℕ)
    (event_type : String) : List α :=
  alistGetD ((alistGet records job_id).getD []) event_type []

/-! ### `CPU.process_job` / `AMDRyzen.process_job` (devices.py, lines 33-77
and 142-187): resource-acquisition protocol

Both generators run, in order: log the phase-entry events, `container.get
(cpu_units)`, then in a `try` block `mem_bw.get(mem_bw)` whose failure is
answered by `container.put(cpu_units)` followed by a re-raise; then
`env.timeout(duration)`, `event_bus.publish("device_finish", ...)`, and a
terminal `try` releasing `container.put(cpu_units)` then `mem_bw.put(mem_bw)`
whose failure is only printed.

The simpy runtime can make a yielded `get`/`put` event fail (e.g. a process
interrupt); the Booleans `bwGetFails` and `releaseFails` say whether the
runtime injects such a failure at the `mem_bw.get` yield and at the first
release `put` yield respectively.  A `get` for more units than are free
suspends the process; a run reaching such a suspension is `blocked`. -/

/-- One observable action of a `process_job` run. -/
inductive Act where
  /-- `job_records_manager.log_job_event(job_id, ev, _)` -/
  | log (ev : String)
  /-- `container.get(n)` completed -/
  | getCpu (n : ℕ)
  /-- `container.put(n)` completed -/
  | putCpu (n : ℕ)
  /-- `mem_bw.get(n)` completed -/
  | getBw (n : ℕ)
  /-- `mem_bw.put(n)` completed -/
  | putBw (n : ℕ)
  /-- `env.timeout(duration)` elapsed -/
  | timeout
  /-- `event_bus.publish("device_finish", ...)` -/
  | publishFinish
  /-- the `print(... ERROR while returning units ...)` in the terminal handler -/
  | errLog
  deriving DecidableEq

/-- How a `process_job` run ends from the caller's point of view. -/
inductive Outcome where
  /-- the generator returned normally -/
  | ok
  /-- the generator re-raised an exception (`raise`, line 51 / 173) -/
  | raised
  /-- the generator is suspended on a `get` with too few free units -/
  | blocked
  deriving DecidableEq

/-- Free units of the device's two pools (`container` holds CPU units,
`mem_bw` holds bandwidth units; `CPU.assign_env`, lines 26-27). -/
structure DevState where
  cpuFree : ℕ
  bwFree : ℕ
  deriving DecidableEq

/-- Result of a `process_job` run: the outcome, the pool state when the run
ended (or suspended), and the trace of completed actions. -/
structure ProcResult where
  outcome : Outcome
  state : DevState
  trace : List Act
  deriving DecidableEq

/-- The four `log_job_event` calls of `CPU.process_job` (lines 39-43). -/
def cpuLogActs : List Act :=
  [.log "devc_name", .log "cpu_arrive", .log "cpu_units", .log "cpu_mem_bw"]

/-- `CPU.process_job` (devices.py, lines 33-77).  `cpu_units` is drawn by
`random.randint(4, 10)` and `mem_bw` read off the job; both are parameters
here, as is the pool state when the run starts. -/
def processJobCPU (st : DevState) (cpu_units mem_bw : ℕ)
    (bwGetFails releaseFails : Bool) : ProcResult :=
  if cpu_units ≤ st.cpuFree then
    -- line 45: yield self.container.get(cpu_units)
    let st₁ : DevState := ⟨st.cpuFree - cpu_units, st.bwFree⟩
    if bwGetFails then
      -- lines 46-51: the except clause puts the CPU units back and re-raises
      ⟨.raised, ⟨st₁.cpuFree + cpu_units, st₁.bwFree⟩,
        cpuLogActs ++ [.getCpu cpu_units, .putCpu cpu_units]⟩
    else if mem_bw ≤ st₁.bwFree then
      -- line 47: yield self.mem_bw.get(mem_bw)
      let st₂ : DevState := ⟨st₁.cpuFree, st₁.bwFree - mem_bw⟩
      if releaseFails then
        -- lines 73-77: the first release put fails before taking effect;
        -- the handler prints and the generator returns normally
        ⟨.ok, st₂,
          cpuLogActs ++ [.getCpu cpu_units, .getBw mem_bw, .timeout,
            .publishFinish, .errLog]⟩
      else
        ⟨.ok, ⟨st₂.cpuFree + cpu_units, st₂.bwFree + mem_bw⟩,
          cpuLogActs ++ [.getCpu cpu_units, .getBw mem_bw, .timeout,
            .publishFinish, .putCpu cpu_units, .putBw mem_bw]⟩
    else
      ⟨.blocked, st₁, cpuLogActs ++ [.getCpu cpu_units]⟩
  else
    ⟨.blocked, st, cpuLogActs⟩

/-- The eight `log_job_event` calls of `AMDRyzen.process_job`
(lines 156-165). -/
def ryzenLogActs : List Act :=
  [.log "devc_name", .log "cpu_arrive", .log "cpu_units", .log "cpu_mem_bw",
   .log "cpu_model", .log "cpu_cores", .log "cpu_threads", .log "cpu_eff_perf"]

/-- `AMDRyzen.process_job` (devices.py, lines 142-187): identical resource
semantics to `CPU.process_job` (the source says so at line 167), differing
only in the duration computation (modelled separately, see `ryzenDuration`)
and in the extra logged events. -/
def processJobRyzen (st : DevState) (cpu_units mem_bw : ℕ)
    (bwGetFails releaseFails : Bool) : ProcResult :=
  if cpu_units ≤ st.cpuFree then
    -- line 168: yield self.container.get(cpu_units)
    let st₁ : DevState := ⟨st.cpuFree - cpu_units, st.bwFree⟩
    if bwGetFails then
      -- lines 169-173
      ⟨.raised, ⟨st₁.cpuFree + cpu_units, st₁.bwFree⟩,
        ryzenLogActs ++ [.getCpu cpu_units, .putCpu cpu_units]⟩
    else if mem_bw ≤ st₁.bwFree then
      -- line 170: yield self.mem_bw.get(mem_bw)
      let st₂ : DevState := ⟨st₁.cpuFree, st₁.bwFree - mem_bw⟩
      if releaseFails then
        -- lines 183-187
        ⟨.ok, st₂,
          ryzenLogActs ++ [.getCpu cpu_units, .getBw mem_bw, .timeout,
            .publishFinish, .errLog]⟩
      else
        ⟨.ok, ⟨st₂.cpuFree + cpu_units, st₂.bwFree + mem_bw⟩,
          ryzenLogActs ++ [.getCpu cpu_units, .getBw mem_bw, .timeout,
            .publishFinish, .putCpu cpu_units, .putBw mem_bw]⟩
    else
      ⟨.blocked, st₁, ryzenLogActs ++ [.getCpu cpu_units]⟩
  else
    ⟨.blocked, st, ryzenLogActs⟩

/-! ### Capacity pools (simpy `Container`; `CPU.assign_env`, lines 26-27)

Each pool is created with `init = capacity`, so a run starts from a full
pool.  The simulation is single-threaded and cooperative: the global history
of a pool is one sequence of completed `get`/`put` operations.  A `get(n)`
only completes when `n ≤ level`; a `put(n)` only completes when
`level + n ≤ capacity` (simpy blocks both otherwise). -/

/-- A completed operation on one capacity pool. -/
inductive PoolOp where
  | get (n : ℕ)
  | put (n : ℕ)
  deriving DecidableEq

/-- A capacity pool: declared capacity and current free level. -/
structure Pool where
  capacity : ℕ
  level : ℕ
  deriving DecidableEq

/-- Effect of one operation on a pool; `none` when the operation cannot
complete in this state (the issuing process would still be suspended). -/
def PoolOp.apply (op : PoolOp) (p : Pool) : Option Pool :=
  match op with
  | .get n => if n ≤ p.level then some ⟨p.capacity, p.level - n⟩ else none
  | .put n => if p.level + n ≤ p.capacity then some ⟨p.capacity, p.level + n⟩ else none

/-- Run a sequence of completed operations from a pool state. -/
def runOps (p : Pool) : List PoolOp → Option Pool
  | [] => some p
  | op :: ops =>
      match op.apply p with
      | some p' => runOps p' ops
      | none => none

/-- Units taken by a `get`, zero for a `put`. -/
def PoolOp.getAmount : PoolOp → ℕ
  | .get n => n
  | .put _ => 0

/-- Units returned by a `put`, zero for a `get`. -/
def PoolOp.putAmount : PoolOp → ℕ
  | .get _ => 0
  | .put n => n

/-- Total units acquired over a history. -/
def totalGets (ops : List PoolOp) : ℕ := (ops.map PoolOp.getAmount).sum

/-- Total units released over a history. -/
def totalPuts (ops : List PoolOp) : ℕ := (ops.map PoolOp.putAmount).sum

/-- Sum of outstanding acquisitions after a history: units acquired and not
yet returned. -/
def outstanding (ops : List PoolOp) : ℤ := (totalGets ops : ℤ) - totalPuts ops

/-- A history whose acquisitions are all matched by releases. -/
def balancedOps (ops : List PoolOp) : Prop := totalGets ops = totalPuts ops

instance : DecidablePred balancedOps := fun ops =>
  inferInstanceAs (Decidable (totalGets ops = totalPuts ops))

/-- The operations a `process_job` trace performs on the CPU-unit pool
(the device's `container`). -/
def cpuOps : List Act → List PoolOp
  | [] => []
  | .getCpu n :: tl => .get n :: cpuOps tl
  | .putCpu n :: tl => .put n :: cpuOps tl
  | _ :: tl => cpuOps tl

/-- The operations a `process_job` trace performs on the bandwidth pool
(the device's `mem_bw`). -/
def bwOps : List Act → List PoolOp
  | [] => []
  | .getBw n :: tl => .get n :: bwOps tl
  | .putBw n :: tl => .put n :: bwOps tl
  | _ :: tl => bwOps tl

theorem outstanding_cons (op : PoolOp) (tl : List PoolOp) :
    outstanding (op :: tl) =
      (op.getAmount : ℤ) - op.putAmount + outstanding tl := by
  simp only [outstanding, totalGets, totalPuts, List.map_cons, List.sum_cons]
  push_cast
  ring

theorem apply_get_eq (n : ℕ) (p q : Pool)
    (h : PoolOp.apply (.get n) p = some q) :
    n ≤ p.level ∧ q = ⟨p.capacity, p.level - n⟩ := by
  by_cases hn : n ≤ p.level
  · refine ⟨hn, ?_⟩
    simpa [PoolOp.apply, hn] using h.symm
  · simp [PoolOp.apply, hn] at h

theorem apply_put_eq (n : ℕ) (p q : Pool)
    (h : PoolOp.apply (.put n) p = some q) :
    p.level + n ≤ p.capacity ∧ q = ⟨p.capacity, p.level + n⟩ := by
  by_cases hn : p.level + n ≤ p.capacity
  · refine ⟨hn, ?_⟩
    simpa [PoolOp.apply, hn] using h.symm
  · simp [PoolOp.apply, hn] at h

/-- Capacity is unchanged and the level moves by puts minus gets. -/
theorem runOps_conservation (ops : List PoolOp) (p p' : Pool)
    (h : runOps p ops = some p') :
    p'.capacity = p.capacity ∧
      (p'.level : ℤ) = (p.level : ℤ) - outstanding ops := by
  induction ops generalizing p with
  | nil =>
      simp only [runOps, Option.some_inj] at h
      subst h
      simp [outstanding, totalGets, totalPuts]
  | cons op tl ih =>
      simp only [runOps] at h
      cases hap : op.apply p with
      | none => rw [hap] at h; exact Option.noConfusion h
      | some q =>
          rw [hap] at h
          have h' : runOps q tl = some p' := h
          cases op with
          | get n =>
              obtain ⟨hn, rfl⟩ := apply_get_eq n p q hap
              obtain ⟨hc, hl⟩ := ih _ h'
              refine ⟨hc, ?_⟩
              rw [outstanding_cons]
              simp only [PoolOp.getAmount, PoolOp.putAmount] at hl ⊢
              omega
          | put n =>
              obtain ⟨hn, rfl⟩ := apply_put_eq n p q hap
              obtain ⟨hc, hl⟩ := ih _ h'
              refine ⟨hc, ?_⟩
              rw [outstanding_cons]
              simp only [PoolOp.getAmount, PoolOp.putAmount] at hl ⊢
              omega

/-- A prefix of a runnable history is runnable. -/
theorem runOps_append_isSome (p : Pool) (pre suf : List PoolOp)
    (h : (runOps p (pre ++ suf)).isSome) : (runOps p pre).isSome := by
  induction pre generalizing p with
  | nil => simp [runOps]
  | cons op tl ih =>
      rw [List.cons_append] at h
      simp only [runOps] at h ⊢
      cases hap : op.apply p with
      | none => rw [hap] at h; exact Bool.noConfusion h
      | some q => rw [hap] at h; exact ih q h

/-! ### Cost configuration and `finalize_job_energy_cost`
(job_records_manager.py, lines 45-119; default configuration from
hybridcloudsimenv.py, lines 32-65)

Floats are modelled as rationals.  Python's `round(x, 4)` rounds half to
even. -/

/-- Python's `round` to an integer: round half to even. -/
def roundHalfEven (q : ℚ) : ℤ :=
  let f := ⌊q⌋
  let r := q - f
  if r < 1 / 2 then f
  else if 1 / 2 < r then f + 1
  else if f % 2 = 0 then f else f + 1

/-- Python's `round(x, 4)`. -/
def round4 (q : ℚ) : ℚ := (roundHalfEven (q * 10000) : ℚ) / 10000

/-- The fields of the `"energy"` sub-dict of the cost configuration, with
the defaults applied that `finalize_job_energy_cost` uses for missing keys.
All fields of the default configuration built in `HybridCloudSimEnv.__init__`
(hybridcloudsimenv.py, lines 32-65) are carried, including the affine-model
fields (`cpu_power_model`, idle/peak/capacity). -/
structure EnergyCfg where
  electricity_price_per_kwh : ℚ
  default_qpu_power_kw : ℚ
  qpu_power_kw : List (String × ℚ)
  cpu_power_model : String
  default_cpu_idle_kw : ℚ
  default_cpu_peak_kw : ℚ
  default_cpu_capacity_units : ℚ
  cpu_idle_kw : List (String × ℚ)
  cpu_peak_kw : List (String × ℚ)
  cpu_capacity_units : List (String × ℚ)
  default_cpu_power_kw : ℚ
  cpu_power_kw : List (String × ℚ)
  deriving DecidableEq

/-- The default cost configuration of `HybridCloudSimEnv.__init__`
(hybridcloudsimenv.py, lines 32-65). -/
def defaultCostConfig : EnergyCfg where
  electricity_price_per_kwh := 18 / 100
  default_qpu_power_kw := 80
  qpu_power_kw := []
  cpu_power_model := "affine"
  default_cpu_idle_kw := 25 / 100
  default_cpu_peak_kw := 80 / 100
  default_cpu_capacity_units := 16
  cpu_idle_kw := []
  cpu_peak_kw := []
  cpu_capacity_units := []
  default_cpu_power_kw := 60 / 100
  cpu_power_kw := []

/-- One entry of `qpu_segments` / `cpu_segments` (lines 83-88 / 101-106). -/
structure Segment where
  device : String
  time_s : ℚ
  energy_kwh : ℚ
  power_kw : ℚ
  deriving DecidableEq

/-- Projection of a job's record dict onto the keys
`finalize_job_energy_cost` reads (with the `rec.get(_, [])` defaults
applied, lines 58-62) and the keys it writes (lines 112-119, `none` while
unset).  `cpu_units` is carried to show it is never read at finalization. -/
structure JobRec where
  qpu_start : List ℚ := []
  qpu_finish : List ℚ := []
  cpu_start : List ℚ := []
  cpu_finish : List ℚ := []
  devc_name : List String := []
  cpu_units : List ℕ := []
  qpu_time_s : Option ℚ := none
  cpu_time_s : Option ℚ := none
  energy_qpu_kwh : Option ℚ := none
  energy_cpu_kwh : Option ℚ := none
  energy_total_kwh : Option ℚ := none
  cost_energy_total : Option ℚ := none
  qpu_segments : Option (List Segment) := none
  cpu_segments : Option (List Segment) := none
  deriving DecidableEq

/-- One segment-summing loop of `finalize_job_energy_cost` (lines 73-88 for
the QPU class with `off = 0` and unknown name `"UNKNOWN_QPU"`, lines 91-106
for the CPU class with `off = 1` and `"UNKNOWN_CPU"`).  Iterates over the
start list; `finishL[i]` is a checked index (Python raises `IndexError` when
`i` is out of range, modelled as `Except.error`); the device name uses the
guarded index `devs[2i+off] if 2i+off < len(devs) else unknown`.  Returns
(summed time, summed energy, segments). -/
def segLoop (finishL : List ℚ) (devs : List String)
    (kwMap : List (String × ℚ)) (defKw : ℚ) (off : ℕ) (unknown : String) :
    List ℚ → ℕ → Except String (ℚ × ℚ × List Segment)
  | [], _ => .ok (0, 0, [])
  | s :: rest, i =>
      match finishL[i]? with
      | none => .error "IndexError"
      | some f =>
          let t := f - s
          let dev := devs.getD (2 * i + off) unknown
          let power_kw := alistGetD kwMap dev defKw
          let e := power_kw * (t / 3600)
          match segLoop finishL devs kwMap defKw off unknown rest (i + 1) with
          | .error m => .error m
          | .ok (tSum, eSum, segs) =>
              .ok (t + tSum, e + eSum,
                { device := dev, time_s := round4 t, energy_kwh := round4 e,
                  power_kw := round4 power_kw } :: segs)

/-- The body of `finalize_job_energy_cost` on one job record (lines 49-119),
given the `"energy"` configuration. -/
def finalizeRec (cfg : EnergyCfg) (rec : JobRec) : Except String JobRec :=
  match segLoop rec.qpu_finish rec.devc_name cfg.qpu_power_kw
      cfg.default_qpu_power_kw 0 "UNKNOWN_QPU" rec.qpu_start 0 with
  | .error m => .error m
  | .ok (qpu_time_s, qpu_energy_kwh, qpu_segments) =>
      match segLoop rec.cpu_finish rec.devc_name cfg.cpu_power_kw
          cfg.default_cpu_power_kw 1 "UNKNOWN_CPU" rec.cpu_start 0 with
      | .error m => .error m
      | .ok (cpu_time_s, cpu_energy_kwh, cpu_segments) =>
          let total_energy_kwh := qpu_energy_kwh + cpu_energy_kwh
          let total_cost := total_energy_kwh * cfg.electricity_price_per_kwh
          .ok { rec with
            qpu_time_s := some (round4 qpu_time_s)
            cpu_time_s := some (round4 cpu_time_s)
            energy_qpu_kwh := some (round4 qpu_energy_kwh)
            energy_cpu_kwh := some (round4 cpu_energy_kwh)
            energy_total_kwh := some (round4 total_energy_kwh)
            cost_energy_total := some (round4 total_cost)
            qpu_segments := some qpu_segments
            cpu_segments := some cpu_segments }

/-- `finalize_job_energy_cost(self, job_id)` at the records-store level:
lines 46-47 make it return immediately when `job_id` has no entry. -/
def finalize_job_energy_cost (cfg : EnergyCfg) (store : List (ℕ × JobRec))
    (job_id : ℕ) : Except String (List (ℕ × JobRec)) :=
  match alistGet store job_id with
  | none => .ok store
  | some rec =>
      match finalizeRec cfg rec with
      | .error m => .error m
      | .ok rec' => .ok (alistSet store job_id rec')

/-- Follows the spec's words (spec.md §3 Cost Configuration and the config
comments at hybridcloudsimenv.py lines 45-59): affine CPU power
`idle + (peak - idle) * utilization` with `utilization = allocated compute
units / device capacity units`, idle/peak/capacity taken from the
per-device override maps or the defaults.  Stated for comparison with what
`finalizeRec` actually computes. -/
def specAffineCpuPowerKw (cfg : EnergyCfg) (dev : String) (units : ℚ) : ℚ :=
  let idle := alistGetD cfg.cpu_idle_kw dev cfg.default_cpu_idle_kw
  let peak := alistGetD cfg.cpu_peak_kw dev cfg.default_cpu_peak_kw
  let capu := alistGetD cfg.cpu_capacity_units dev cfg.default_cpu_capacity_units
  idle + (peak - idle) * (units / capu)

/-! ### `AMDRyzen` performance model (devices.py, lines 127-154)

Float arithmetic, including the real exponentiation `cpu_units ** 0.85`,
is modelled over the reals. -/

/-- `AMDRyzen.effective_perf` (lines 127-130):
`avg_ghz = 0.5 * (base_ghz + boost_ghz); return avg_ghz * ipc_factor`. -/
noncomputable def effective_perf (base_ghz boost_ghz ipc_factor : ℝ) : ℝ :=
  (0.5 * (base_ghz + boost_ghz)) * ipc_factor

/-- `parallel_eff = cpu_units ** 0.85` (line 150). -/
noncomputable def parallel_eff (cpu_units : ℕ) : ℝ :=
  (cpu_units : ℝ) ^ (0.85 : ℝ)

/-- The duration computation of `AMDRyzen.process_job` (lines 148-154):
`work = float(getattr(job, "cpu_work", 0.0))`; when `work > 0` the duration
is `work / (max(self.effective_perf, 1e-6) * parallel_eff)`, otherwise a
random base duration divided by `max(self.effective_perf, 1e-6)`. -/
noncomputable def ryzenDuration (base_ghz boost_ghz ipc_factor work
    base_duration : ℝ) (cpu_units : ℕ) : ℝ :=
  if work > 0 then
    work / (max (effective_perf base_ghz boost_ghz ipc_factor) (1e-6) *
      parallel_eff cpu_units)
  else
    base_duration / max (effective_perf base_ghz boost_ghz ipc_factor) (1e-6)

/-! ### Claim C1: rollback on bandwidth-acquisition failure -/

/-- C1: in `process_job` on both CPU-class devices (`CPU` and `AMDRyzen`),
if the bandwidth acquisition fails after the compute acquisition succeeded,
the previously acquired compute units are released back to the compute pool
— its free count returns to the pre-acquisition value, the rollback `putCpu`
being the last completed action before control leaves the generator — and
the failure is re-raised to the caller (outcome `raised`, never a silent
`ok`), with the bandwidth pool untouched. -/
theorem bw_failure_rolls_back_compute (st : DevState) (cpu_units mem_bw : ℕ)
    (rel : Bool) (hcpu : cpu_units ≤ st.cpuFree) :
    ((processJobCPU st cpu_units mem_bw true rel).outcome = .raised ∧
      (processJobCPU st cpu_units mem_bw true rel).state.cpuFree = st.cpuFree ∧
      (processJobCPU st cpu_units mem_bw true rel).state.bwFree = st.bwFree ∧
      (processJobCPU st cpu_units mem_bw true rel).trace =
        cpuLogActs ++ [.getCpu cpu_units, .putCpu cpu_units]) ∧
    ((processJobRyzen st cpu_units mem_bw true rel).outcome = .raised ∧
      (processJobRyzen st cpu_units mem_bw true rel).state.cpuFree = st.cpuFree ∧
      (processJobRyzen st cpu_units mem_bw true rel).state.bwFree = st.bwFree ∧
      (processJobRyzen st cpu_units mem_bw true rel).trace =
        ryzenLogActs ++ [.getCpu cpu_units, .putCpu cpu_units]) := by
  have hc : st.cpuFree - cpu_units + cpu_units = st.cpuFree :=
    Nat.sub_add_cancel hcpu
  constructor <;>
    simp only [processJobCPU, processJobRyzen, if_pos hcpu, if_true] <;>
    simp [hc]

/-- Witness for C1 at a concrete device state and demand. -/
theorem bw_failure_rolls_back_compute_witness :
    4 ≤ (DevState.mk 100 200).cpuFree ∧
      (processJobCPU ⟨100, 200⟩ 4 20 true false).outcome = .raised ∧
      (processJobCPU ⟨100, 200⟩ 4 20 true false).state.cpuFree = 100 := by
  have h := bw_failure_rolls_back_compute ⟨100, 200⟩ 4 20 false (by decide)
  exact ⟨by decide, h.1.1, h.1.2.1⟩

/-! ### Claim C4: order of the terminal release -/

/-- C4 counterexample: in a completed failure-free `CPU.process_job` run the
compute units are returned to the compute pool before the bandwidth units
are returned to the bandwidth pool (lines 74-75), so the claimed order —
bandwidth first, then compute — is false at this concrete run. -/
theorem release_order_claim_counterexample :
    ¬ ((processJobCPU ⟨100, 200⟩ 4 20 false false).trace.indexOf (Act.putBw 20) <
      (processJobCPU ⟨100, 200⟩ 4 20 false false).trace.indexOf (Act.putCpu 4)) := by
  decide

/-- C4 amended: after the `device_finish` publication the compute units are
returned first and then the bandwidth units, on both CPU-class devices: the
completed trace ends with `publishFinish, putCpu, putBw` in that order. -/
theorem release_order_cpu_then_bw (st : DevState) (cpu_units mem_bw : ℕ)
    (hcpu : cpu_units ≤ st.cpuFree) (hbw : mem_bw ≤ st.bwFree) :
    (processJobCPU st cpu_units mem_bw false false).trace =
      cpuLogActs ++ [.getCpu cpu_units, .getBw mem_bw, .timeout,
        .publishFinish, .putCpu cpu_units, .putBw mem_bw] ∧
    (processJobRyzen st cpu_units mem_bw false false).trace =
      ryzenLogActs ++ [.getCpu cpu_units, .getBw mem_bw, .timeout,
        .publishFinish, .putCpu cpu_units, .putBw mem_bw] := by
  constructor <;> simp [processJobCPU, processJobRyzen, hcpu, hbw]

/-- Witness for the amended C4 at a concrete device state and demand. -/
theorem release_order_cpu_then_bw_witness :
    4 ≤ (DevState.mk 100 200).cpuFree ∧ 20 ≤ (DevState.mk 100 200).bwFree ∧
      (processJobCPU ⟨100, 200⟩ 4 20 false false).trace =
        cpuLogActs ++ [.getCpu 4, .getBw 20, .timeout, .publishFinish,
          .putCpu 4, .putBw 20] := by
  have h := release_order_cpu_then_bw ⟨100, 200⟩ 4 20 (by decide) (by decide)
  exact ⟨by decide, by decide, h.1⟩

/-! ### Claim C9: release-phase failure is reported but swallowed -/

/-- C9: on both CPU-class devices an exception raised while returning
capacity in the terminal release step is caught and reported (the error
print is the last trace action) but not re-raised — the outcome is `ok`,
not `raised` — and no rollback is attempted: the pools keep the withdrawn
units. -/
theorem release_failure_swallowed (st : DevState) (cpu_units mem_bw : ℕ)
    (hcpu : cpu_units ≤ st.cpuFree) (hbw : mem_bw ≤ st.bwFree) :
    ((processJobCPU st cpu_units mem_bw false true).outcome = .ok ∧
      (processJobCPU st cpu_units mem_bw false true).trace =
        cpuLogActs ++ [.getCpu cpu_units, .getBw mem_bw, .timeout,
          .publishFinish, .errLog] ∧
      (processJobCPU st cpu_units mem_bw false true).state =
        ⟨st.cpuFree - cpu_units, st.bwFree - mem_bw⟩) ∧
    ((processJobRyzen st cpu_units mem_bw false true).outcome = .ok ∧
      (processJobRyzen st cpu_units mem_bw false true).trace =
        ryzenLogActs ++ [.getCpu cpu_units, .getBw mem_bw, .timeout,
          .publishFinish, .errLog] ∧
      (processJobRyzen st cpu_units mem_bw false true).state =
        ⟨st.cpuFree - cpu_units, st.bwFree - mem_bw⟩) := by
  constructor <;> simp [processJobCPU, processJobRyzen, hcpu, hbw]

/-- Witness for C9 at a concrete device state and demand. -/
theorem release_failure_swallowed_witness :
    4 ≤ (DevState.mk 100 200).cpuFree ∧ 20 ≤ (DevState.mk 100 200).bwFree ∧
      (processJobCPU ⟨100, 200⟩ 4 20 false true).outcome = .ok := by
  have h := release_failure_swallowed ⟨100, 200⟩ 4 20 (by decide) (by decide)
  exact ⟨by decide, by decide, h.1.1⟩

/-! ### Claim C2: capacity conservation -/

theorem totalGets_perm {a b : List PoolOp} (h : a.Perm b) :
    totalGets a = totalGets b :=
  List.Perm.sum_eq (h.map PoolOp.getAmount)

theorem totalPuts_perm {a b : List PoolOp} (h : a.Perm b) :
    totalPuts a = totalPuts b :=
  List.Perm.sum_eq (h.map PoolOp.putAmount)

theorem totalGets_join (L : List (List PoolOp)) :
    totalGets L.flatten = (L.map totalGets).sum := by
  simp only [totalGets, List.map_flatten, List.sum_flatten, List.map_map]
  rfl

theorem totalPuts_join (L : List (List PoolOp)) :
    totalPuts L.flatten = (L.map totalPuts).sum := by
  simp only [totalPuts, List.map_flatten, List.sum_flatten, List.map_map]
  rfl

/-- Every non-blocked `CPU.process_job` run with a failure-free release
performs matched get/put totals on each of its two pools. -/
theorem processJobCPU_balanced (st : DevState) (u m : ℕ) (bwf : Bool)
    (h : (processJobCPU st u m bwf false).outcome ≠ .blocked) :
    balancedOps (cpuOps (processJobCPU st u m bwf false).trace) ∧
      balancedOps (bwOps (processJobCPU st u m bwf false).trace) := by
  by_cases h1 : u ≤ st.cpuFree
  · cases bwf with
    | true =>
        constructor <;>
          simp [processJobCPU, h1, cpuOps, bwOps, cpuLogActs, balancedOps,
            totalGets, totalPuts, PoolOp.getAmount, PoolOp.putAmount]
    | false =>
        by_cases h2 : m ≤ st.bwFree
        · constructor <;>
            simp [processJobCPU, h1, h2, cpuOps, bwOps, cpuLogActs,
              balancedOps, totalGets, totalPuts, PoolOp.getAmount,
              PoolOp.putAmount]
        · exact absurd (by simp [processJobCPU, h1, h2]) h
  · exact absurd (by simp [processJobCPU, h1]) h

/-- Every non-blocked `AMDRyzen.process_job` run with a failure-free release
performs matched get/put totals on each of its two pools. -/
theorem processJobRyzen_balanced (st : DevState) (u m : ℕ) (bwf : Bool)
    (h : (processJobRyzen st u m bwf false).outcome ≠ .blocked) :
    balancedOps (cpuOps (processJobRyzen st u m bwf false).trace) ∧
      balancedOps (bwOps (processJobRyzen st u m bwf false).trace) := by
  by_cases h1 : u ≤ st.cpuFree
  · cases bwf with
    | true =>
        constructor <;>
          simp [processJobRyzen, h1, cpuOps, bwOps, ryzenLogActs, balancedOps,
            totalGets, totalPuts, PoolOp.getAmount, PoolOp.putAmount]
    | false =>
        by_cases h2 : m ≤ st.bwFree
        · constructor <;>
            simp [processJobRyzen, h1, h2, cpuOps, bwOps, ryzenLogActs,
              balancedOps, totalGets, totalPuts, PoolOp.getAmount,
              PoolOp.putAmount]
        · exact absurd (by simp [processJobRyzen, h1, h2]) h
  · exact absurd (by simp [processJobRyzen, h1]) h

/-- C2: a resource pool created full (`init = capacity`, `CPU.assign_env`
lines 26-27), run through any completable operation history: (1) at every
instant — after every prefix — the outstanding acquisitions never exceed
the declared capacity; (2) if the history is drained (all acquisitions
matched by releases) the free count returns to full capacity; (3) any
interleaving (permutation of a join) of per-job balanced histories is
itself balanced; and (4) every non-blocked `process_job` run of either
CPU-class device with a failure-free release contributes a balanced history
to each of its two pools. -/
theorem pool_capacity_conservation (cap : ℕ) (ops : List PoolOp)
    (hrun : (runOps ⟨cap, cap⟩ ops).isSome) :
    (∀ pre suf, ops = pre ++ suf → outstanding pre ≤ (cap : ℤ)) ∧
    (balancedOps ops → runOps ⟨cap, cap⟩ ops = some ⟨cap, cap⟩) ∧
    (∀ traces : List (List PoolOp), (∀ t ∈ traces, balancedOps t) →
      ops.Perm traces.flatten → balancedOps ops) ∧
    (∀ st u m bwf, (processJobCPU st u m bwf false).outcome ≠ .blocked →
      balancedOps (cpuOps (processJobCPU st u m bwf false).trace) ∧
      balancedOps (bwOps (processJobCPU st u m bwf false).trace)) ∧
    (∀ st u m bwf, (processJobRyzen st u m bwf false).outcome ≠ .blocked →
      balancedOps (cpuOps (processJobRyzen st u m bwf false).trace) ∧
      balancedOps (bwOps (processJobRyzen st u m bwf false).trace)) := by
  refine ⟨?_, ?_, ?_,
    fun st u m bwf h => processJobCPU_balanced st u m bwf h,
    fun st u m bwf h => processJobRyzen_balanced st u m bwf h⟩
  · intro pre suf hsplit
    subst hsplit
    have hpre := runOps_append_isSome _ pre suf hrun
    obtain ⟨p', hp'⟩ := Option.isSome_iff_exists.mp hpre
    obtain ⟨_, hl⟩ := runOps_conservation pre _ p' hp'
    have hnn : (0 : ℤ) ≤ p'.level := Int.ofNat_nonneg _
    simp only at hl
    omega
  · intro hbal
    obtain ⟨p', hp'⟩ := Option.isSome_iff_exists.mp hrun
    obtain ⟨hc, hl⟩ := runOps_conservation ops _ p' hp'
    have hz : outstanding ops = 0 := by
      unfold balancedOps at hbal
      unfold outstanding
      rw [hbal]
      ring
    rw [hz] at hl
    obtain ⟨pc, pl⟩ := p'
    rw [hp']
    have h1 : pc = cap := hc
    have h2 : pl = cap := by simp only at hl; omega
    rw [h1, h2]
  · intro traces hbt hperm
    unfold balancedOps
    have hg : totalGets ops = (traces.map totalGets).sum := by
      rw [totalGets_perm hperm, totalGets_join]
    have hp : totalPuts ops = (traces.map totalPuts).sum := by
      rw [totalPuts_perm hperm, totalPuts_join]
    rw [hg, hp]
    have hmaps : traces.map totalGets = traces.map totalPuts :=
      List.map_congr_left fun t ht => hbt t ht
    rw [hmaps]

/-- Witness for C2: one device pool of capacity 10 running one job that
acquires and releases 6 units. -/
theorem pool_capacity_conservation_witness :
    (runOps ⟨10, 10⟩ [PoolOp.get 6, PoolOp.put 6]).isSome = true ∧
      (balancedOps [PoolOp.get 6, PoolOp.put 6] →
        runOps ⟨10, 10⟩ [PoolOp.get 6, PoolOp.put 6] = some ⟨10, 10⟩) := by
  have h := pool_capacity_conservation 10 [PoolOp.get 6, PoolOp.put 6]
    (by decide)
  exact ⟨by decide, h.2.1⟩

/-! ### Claim C5: `log_job_event` append semantics -/

/-- C5: `log_job_event(job_id, event_type, value)` appends `value` at the
end of the list stored at `records[job_id][event_type]` (previously logged
values preserved in order, a fresh one-element list on the first occurrence
of the event type), leaves every other `(job, event)` key unchanged, and
the per-job mapping exists afterwards (created on the first event for that
job id). -/
theorem log_job_event_appends {α : Type} (records : Records α) (job_id : ℕ)
    (event_type : String) (v : α) :
    loggedEvents (log_job_event records job_id event_type v) job_id event_type
        = loggedEvents records job_id event_type ++ [v] ∧
      (∀ j e, j ≠ job_id ∨ e ≠ event_type →
        loggedEvents (log_job_event records job_id event_type v) j e =
          loggedEvents records j e) ∧
      (alistGet (log_job_event records job_id event_type v) job_id).isSome := by
  cases h0 : alistGet records job_id with
  | none =>
      have hrw : log_job_event records job_id event_type v =
          alistSet (alistSet records job_id []) job_id [(event_type, [v])] := by
        simp [log_job_event, h0, alistGet_set_self, alistGet, alistSet]
      refine ⟨?_, ?_, ?_⟩
      · rw [hrw]
        simp [loggedEvents, alistGetD, alistGet_set_self, h0, alistGet]
      · intro j e hne
        rw [hrw]
        by_cases hj : j = job_id
        · subst hj
          have he : e ≠ event_type := by
            rcases hne with hj' | he'
            · exact absurd rfl hj'
            · exact he'
          simp [loggedEvents, alistGetD, alistGet_set_self, h0, alistGet,
            Ne.symm he]
        · rw [loggedEvents, loggedEvents,
            alistGet_set_ne _ _ _ _ fun h => hj h.symm,
            alistGet_set_ne _ _ _ _ fun h => hj h.symm]
      · rw [hrw, alistGet_set_self]
        rfl
  | some jr =>
      have hrw : log_job_event records job_id event_type v =
          alistSet records job_id
            (alistSet jr event_type ((alistGet jr event_type).getD [] ++ [v])) := by
        cases h1 : alistGet jr event_type <;> simp [log_job_event, h0, h1]
      refine ⟨?_, ?_, ?_⟩
      · rw [hrw]
        simp [loggedEvents, alistGetD, alistGet_set_self, h0]
      · intro j e hne
        rw [hrw]
        by_cases hj : j = job_id
        · subst hj
          have he : e ≠ event_type := by
            rcases hne with hj' | he'
            · exact absurd rfl hj'
            · exact he'
          rw [loggedEvents, loggedEvents, alistGet_set_self, h0]
          simp only [Option.getD_some]
          rw [alistGetD, alistGetD,
            alistGet_set_ne _ _ _ _ fun h => he h.symm]
        · rw [loggedEvents, loggedEvents,
            alistGet_set_ne _ _ _ _ fun h => hj h.symm]
      · rw [hrw, alistGet_set_self]
        rfl

/-- Witness for C5: first event for a fresh job id lands in a fresh
one-element list. -/
theorem log_job_event_appends_witness :
    loggedEvents (log_job_event ([] : Records ℕ) 1 "cpu_arrive" 7)
        1 "cpu_arrive" =
      loggedEvents ([] : Records ℕ) 1 "cpu_arrive" ++ [7] :=
  (log_job_event_appends ([] : Records ℕ) 1 "cpu_arrive" 7).1

/-! ### Claim C7: unknown job id is a no-op -/

/-- C7: `finalize_job_energy_cost` called for a job id with no entry in the
records store returns without raising and leaves the store unchanged. -/
theorem finalize_unknown_job_noop (cfg : EnergyCfg)
    (store : List (ℕ × JobRec)) (job_id : ℕ)
    (h : alistGet store job_id = none) :
    finalize_job_energy_cost cfg store job_id = .ok store := by
  unfold finalize_job_energy_cost
  rw [h]

/-- Witness for C7 on the empty store. -/
theorem finalize_unknown_job_noop_witness :
    alistGet ([] : List (ℕ × JobRec)) 5 = none ∧
      finalize_job_energy_cost defaultCostConfig [] 5 = .ok [] :=
  ⟨rfl, finalize_unknown_job_noop defaultCostConfig [] 5 rfl⟩

/-! ### Claim C6: finalization is idempotent on a stable event log -/

/-- `finalizeRec` reads only the event-list fields and writes only the
output fields, so re-finalizing an already finalized record reproduces it
exactly. -/
theorem finalizeRec_idem (cfg : EnergyCfg) (rec rec' : JobRec)
    (h : finalizeRec cfg rec = .ok rec') :
    finalizeRec cfg rec' = .ok rec' := by
  unfold finalizeRec at h ⊢
  cases hq : segLoop rec.qpu_finish rec.devc_name cfg.qpu_power_kw
      cfg.default_qpu_power_kw 0 "UNKNOWN_QPU" rec.qpu_start 0 with
  | error m => rw [hq] at h; exact Except.noConfusion h
  | ok q3 =>
      obtain ⟨qt, qe, qsegs⟩ := q3
      rw [hq] at h
      cases hc : segLoop rec.cpu_finish rec.devc_name cfg.cpu_power_kw
          cfg.default_cpu_power_kw 1 "UNKNOWN_CPU" rec.cpu_start 0 with
      | error m => rw [hc] at h; exact Except.noConfusion h
      | ok c3 =>
          obtain ⟨ct, ce, csegs⟩ := c3
          rw [hc] at h
          simp only [Except.ok.injEq] at h
          subst h
          simp only
          rw [hq, hc]

/-- C6: with a fixed cost configuration and no intervening `log_job_event`
calls, running `finalize_job_energy_cost` a second time reads the same
unchanged event lists and stores back exactly the same outputs: the store
after two runs equals the store after one. -/
theorem finalize_idempotent (cfg : EnergyCfg)
    (store store' : List (ℕ × JobRec)) (job_id : ℕ)
    (h : finalize_job_energy_cost cfg store job_id = .ok store') :
    finalize_job_energy_cost cfg store' job_id = .ok store' := by
  unfold finalize_job_energy_cost at h ⊢
  cases h0 : alistGet store job_id with
  | none =>
      rw [h0] at h
      simp only [Except.ok.injEq] at h
      subst h
      rw [h0]
  | some rec =>
      rw [h0] at h
      have h' : (match finalizeRec cfg rec with
          | Except.error m => Except.error m
          | Except.ok r2 => Except.ok (alistSet store job_id r2)) =
          Except.ok store' := h
      cases hfin : finalizeRec cfg rec with
      | error m => rw [hfin] at h'; exact Except.noConfusion h'
      | ok rec' =>
          rw [hfin] at h'
          simp only [Except.ok.injEq] at h'
          subst h'
          simp only [alistGet_set_self, finalizeRec_idem cfg rec rec' hfin,
            alistSet_set_self]

/-- A job record with an empty event log. -/
def emptyRec : JobRec := {}

/-- The result of finalizing `emptyRec`: every total is zero and both
segment lists are empty. -/
def emptyRecFinalized : JobRec where
  qpu_time_s := some 0
  cpu_time_s := some 0
  energy_qpu_kwh := some 0
  energy_cpu_kwh := some 0
  energy_total_kwh := some 0
  cost_energy_total := some 0
  qpu_segments := some []
  cpu_segments := some []

/-- Witness for C6: finalizing a one-job store twice yields the same store
as finalizing it once. -/
theorem finalize_idempotent_witness :
    finalize_job_energy_cost defaultCostConfig [(1, emptyRec)] 1 =
        .ok [(1, emptyRecFinalized)] ∧
      finalize_job_energy_cost defaultCostConfig [(1, emptyRecFinalized)] 1 =
        .ok [(1, emptyRecFinalized)] := by
  have h1 : finalize_job_energy_cost defaultCostConfig [(1, emptyRec)] 1 =
      .ok [(1, emptyRecFinalized)] := by
    simp [finalize_job_energy_cost, alistGet, alistSet, finalizeRec, segLoop,
      round4, roundHalfEven, defaultCostConfig, emptyRec, emptyRecFinalized]
  exact ⟨h1, finalize_idempotent defaultCostConfig _ _ 1 h1⟩

/-! ### Claim C10: finalization totality and the UNKNOWN fallback -/

/-- The segment loop never fails while the finish list is long enough for
the start list. -/
theorem segLoop_total (finishL : List ℚ) (devs : List String)
    (kwMap : List (String × ℚ)) (defKw : ℚ) (off : ℕ) (unknown : String) :
    ∀ (startL : List ℚ) (i : ℕ), startL.length + i ≤ finishL.length →
      ∃ out, segLoop finishL devs kwMap defKw off unknown startL i = .ok out := by
  intro startL
  induction startL with
  | nil => exact fun i _ => ⟨(0, 0, []), rfl⟩
  | cons s rest ih =>
      intro i hlen
      have hi : i < finishL.length := by
        simp only [List.length_cons] at hlen
        omega
      obtain ⟨⟨t, e, segs⟩, hout⟩ := ih (i + 1)
        (by simp only [List.length_cons] at hlen; omega)
      refine ⟨(finishL[i] - s + t,
        alistGetD kwMap (devs.getD (2 * i + off) unknown) defKw *
          ((finishL[i] - s) / 3600) + e,
        { device := devs.getD (2 * i + off) unknown,
          time_s := round4 (finishL[i] - s),
          energy_kwh := round4 (alistGetD kwMap
            (devs.getD (2 * i + off) unknown) defKw * ((finishL[i] - s) / 3600)),
          power_kw := round4 (alistGetD kwMap
            (devs.getD (2 * i + off) unknown) defKw) } :: segs), ?_⟩
      simp only [segLoop]
      rw [List.getElem?_eq_getElem hi, hout]

/-- Device attribution and power of each segment produced by the loop:
entry `k` (for start index `i + k`) carries the guarded
`devc_name[2(i+k)+off]` lookup with the `unknown` fallback, and its power is
the kW-map lookup of that name with the class default. -/
theorem segLoop_fields (finishL : List ℚ) (devs : List String)
    (kwMap : List (String × ℚ)) (defKw : ℚ) (off : ℕ) (unknown : String) :
    ∀ (startL : List ℚ) (i : ℕ) (t e : ℚ) (segs : List Segment),
      segLoop finishL devs kwMap defKw off unknown startL i = .ok (t, e, segs) →
      ∀ k (hk : k < segs.length),
        (segs.get ⟨k, hk⟩).device = devs.getD (2 * (i + k) + off) unknown ∧
        (segs.get ⟨k, hk⟩).power_kw =
          round4 (alistGetD kwMap (devs.getD (2 * (i + k) + off) unknown) defKw) := by
  intro startL
  induction startL with
  | nil =>
      intro i t e segs h k hk
      simp only [segLoop, Except.ok.injEq, Prod.mk.injEq] at h
      obtain ⟨-, -, rfl⟩ := h
      exact absurd hk (by simp)
  | cons s rest ih =>
      intro i t e segs h k hk
      simp only [segLoop] at h
      cases hfi : finishL[i]? with
      | none => rw [hfi] at h; exact Except.noConfusion h
      | some f =>
          rw [hfi] at h
          cases hrec : segLoop finishL devs kwMap defKw off unknown rest (i + 1) with
          | error m => rw [hrec] at h; exact Except.noConfusion h
          | ok out =>
              obtain ⟨t', e', segs'⟩ := out
              rw [hrec] at h
              simp only [Except.ok.injEq, Prod.mk.injEq] at h
              obtain ⟨-, -, rfl⟩ := h
              cases k with
              | zero =>
                  constructor <;> simp [List.get]
              | succ k' =>
                  have hk' : k' < segs'.length := by
                    simp only [List.length_cons] at hk
                    omega
                  have hidx : 2 * ((i + 1) + k') + off = 2 * (i + (k' + 1)) + off := by
                    ring
                  obtain ⟨hdev, hpow⟩ := ih (i + 1) t' e' segs' hrec k' hk'
                  rw [hidx] at hdev hpow
                  exact ⟨hdev, hpow⟩

/-- C10: whenever each finish-event list is at least as long as the matching
start-event list, `finalize_job_energy_cost`'s per-record body completes
without raising; a segment whose `devc_name` slot is out of range gets the
`UNKNOWN_QPU` / `UNKNOWN_CPU` fallback name, and (that sentinel having no
override entry) the class default power. -/
theorem finalize_total_unknown_fallback (cfg : EnergyCfg) (rec : JobRec)
    (hq : rec.qpu_start.length ≤ rec.qpu_finish.length)
    (hc : rec.cpu_start.length ≤ rec.cpu_finish.length) :
    ∃ rec', finalizeRec cfg rec = .ok rec' ∧
      (∀ segs, rec'.qpu_segments = some segs →
        ∀ k (hk : k < segs.length), rec.devc_name.length ≤ 2 * k →
          (segs.get ⟨k, hk⟩).device = "UNKNOWN_QPU" ∧
          (alistGet cfg.qpu_power_kw "UNKNOWN_QPU" = none →
            (segs.get ⟨k, hk⟩).power_kw = round4 cfg.default_qpu_power_kw)) ∧
      (∀ segs, rec'.cpu_segments = some segs →
        ∀ k (hk : k < segs.length), rec.devc_name.length ≤ 2 * k + 1 →
          (segs.get ⟨k, hk⟩).device = "UNKNOWN_CPU" ∧
          (alistGet cfg.cpu_power_kw "UNKNOWN_CPU" = none →
            (segs.get ⟨k, hk⟩).power_kw = round4 cfg.default_cpu_power_kw)) := by
  obtain ⟨⟨qt, qe, qsegs⟩, hqs⟩ := segLoop_total rec.qpu_finish rec.devc_name
    cfg.qpu_power_kw cfg.default_qpu_power_kw 0 "UNKNOWN_QPU" rec.qpu_start 0
    (by omega)
  obtain ⟨⟨ct, ce, csegs⟩, hcs⟩ := segLoop_total rec.cpu_finish rec.devc_name
    cfg.cpu_power_kw cfg.default_cpu_power_kw 1 "UNKNOWN_CPU" rec.cpu_start 0
    (by omega)
  have hfin : finalizeRec cfg rec = .ok { rec with
      qpu_time_s := some (round4 qt)
      cpu_time_s := some (round4 ct)
      energy_qpu_kwh := some (round4 qe)
      energy_cpu_kwh := some (round4 ce)
      energy_total_kwh := some (round4 (qe + ce))
      cost_energy_total :=
        some (round4 ((qe + ce) * cfg.electricity_price_per_kwh))
      qpu_segments := some qsegs
      cpu_segments := some csegs } := by
    unfold finalizeRec
    rw [hqs, hcs]
  refine ⟨_, hfin, ?_, ?_⟩
  · intro segs hsegs k hk hlen
    obtain rfl : qsegs = segs := Option.some.inj hsegs
    obtain ⟨hdev, hpow⟩ := segLoop_fields rec.qpu_finish rec.devc_name
      cfg.qpu_power_kw cfg.default_qpu_power_kw 0 "UNKNOWN_QPU"
      rec.qpu_start 0 qt qe qsegs hqs k hk
    have hfall : rec.devc_name.getD (2 * (0 + k) + 0) "UNKNOWN_QPU" =
        "UNKNOWN_QPU" :=
      List.getD_eq_default _ _ (by omega)
    rw [hfall] at hdev hpow
    refine ⟨hdev, fun hnone => ?_⟩
    rwa [alistGetD, hnone, Option.getD_none] at hpow
  · intro segs hsegs k hk hlen
    obtain rfl : csegs = segs := Option.some.inj hsegs
    obtain ⟨hdev, hpow⟩ := segLoop_fields rec.cpu_finish rec.devc_name
      cfg.cpu_power_kw cfg.default_cpu_power_kw 1 "UNKNOWN_CPU"
      rec.cpu_start 0 ct ce csegs hcs k hk
    have hfall : rec.devc_name.getD (2 * (0 + k) + 1) "UNKNOWN_CPU" =
        "UNKNOWN_CPU" :=
      List.getD_eq_default _ _ (by omega)
    rw [hfall] at hdev hpow
    refine ⟨hdev, fun hnone => ?_⟩
    rwa [alistGetD, hnone, Option.getD_none] at hpow

/-- Witness for C10: one QPU segment with an empty `devc_name` list. -/
theorem finalize_total_unknown_fallback_witness :
    ({ qpu_start := [0], qpu_finish := [1] } : JobRec).qpu_start.length ≤
        ({ qpu_start := [0], qpu_finish := [1] } : JobRec).qpu_finish.length ∧
      ∃ rec', finalizeRec defaultCostConfig
          { qpu_start := [0], qpu_finish := [1] } = .ok rec' :=
  ⟨by decide,
    match finalize_total_unknown_fallback defaultCostConfig
        { qpu_start := [0], qpu_finish := [1] } (by decide) (by decide) with
    | ⟨rec', hok, _, _⟩ => ⟨rec', hok⟩⟩

/-! ### Claim C3: the CPU power actually used at finalization -/

/-- A job record with one classical segment: a CPU phase of 1800 simulated
seconds on device `"CPU-1"` that was allocated 8 compute units (the default
configuration declares 16 capacity units). -/
def c3Rec : JobRec where
  cpu_start := [0]
  cpu_finish := [1800]
  devc_name := ["QPU-1", "CPU-1"]
  cpu_units := [8]

/-- C3: `finalize_job_energy_cost` prices the classical segment with the
constant per-device power `cpu_power_kw.get(dev, default_cpu_power_kw)`
(lines 96, 54) — here the constant-mode default 0.60 kW — and never reads
the allocated compute units or the affine fields
(`default_cpu_idle_kw` / `default_cpu_peak_kw` / `default_cpu_capacity_units`)
that the same default configuration declares with
`cpu_power_model = "affine"`; the affine model the spec states would give
0.25 + (0.80 - 0.25) x 8/16 = 0.525 kW. -/
theorem finalize_cpu_power_constant_not_affine :
    (finalizeRec defaultCostConfig c3Rec).toOption.map
        (fun r => (r.cpu_segments.getD []).map Segment.power_kw) =
      some [3 / 5] ∧
    specAffineCpuPowerKw defaultCostConfig "CPU-1" 8 = 21 / 40 ∧
    ((3 : ℚ) / 5 ≠ 21 / 40) := by
  refine ⟨?_, ?_, by norm_num⟩
  · norm_num [finalizeRec, c3Rec, segLoop, defaultCostConfig, alistGetD,
      alistGet, round4, roundHalfEven]
    exact ⟨_, rfl, rfl⟩
  · norm_num [specAffineCpuPowerKw, defaultCostConfig, alistGetD, alistGet]

/-! ### Claim C8: the AMDRyzen performance-model duration -/

/-- C8: for positive declared work, the `AMDRyzen` service duration equals
`work / (effective_throughput * parallel_efficiency)` with
`parallel_efficiency = cpu_units ^ 0.85` and `effective_throughput` the
average of base and boosted clock rates scaled by the
instructions-per-cycle factor — whenever that throughput is at least the
`1e-6` guard the code clamps with. -/
theorem ryzen_duration_performance_model
    (base_ghz boost_ghz ipc_factor work base_duration : ℝ) (cpu_units : ℕ)
    (hwork : 0 < work)
    (hperf : (1e-6 : ℝ) ≤ effective_perf base_ghz boost_ghz ipc_factor) :
    ryzenDuration base_ghz boost_ghz ipc_factor work base_duration cpu_units =
        work / (effective_perf base_ghz boost_ghz ipc_factor *
          parallel_eff cpu_units) ∧
      effective_perf base_ghz boost_ghz ipc_factor =
        ((base_ghz + boost_ghz) / 2) * ipc_factor ∧
      parallel_eff cpu_units = (cpu_units : ℝ) ^ (0.85 : ℝ) := by
  refine ⟨?_, by unfold effective_perf; ring, rfl⟩
  unfold ryzenDuration
  rw [if_pos hwork, max_eq_left hperf]

/-- Witness for C8 at the default AMDRyzen parameters
(base 3.8 GHz, boost 5.0 GHz, IPC factor 1.10) with work 100 on 8 units. -/
theorem ryzen_duration_performance_model_witness :
    (0 : ℝ) < 100 ∧ (1e-6 : ℝ) ≤ effective_perf 3.8 5.0 1.10 ∧
      ryzenDuration 3.8 5.0 1.10 100 2 8 =
        100 / (effective_perf 3.8 5.0 1.10 * parallel_eff 8) := by
  have h1 : (0 : ℝ) < 100 := by norm_num
  have h2 : (1e-6 : ℝ) ≤ effective_perf 3.8 5.0 1.10 := by
    unfold effective_perf
    norm_num
  exact ⟨h1, h2,
    (ryzen_duration_performance_model 3.8 5.0 1.10 100 2 8 h1 h2).1⟩

end HybridCloudSim
